import Mathlib

/-!
# Verification of the Pokemon Quetzal save-file parser (parse_save.py)

A shallow embedding of the parser's core pipeline: sector footers, the
sector checksum, slot selection, sector-map building, save-block
reassembly and party-record decoding, with theorems settling the frozen
claims about them.

A save buffer (Python `bytes`) is modelled as a length together with a
byte-valued function; byte slices that the code materialises as new
`bytes`/`bytearray` objects are modelled as `List Nat`.  Raising an
exception is modelled by `Except.error` carrying the exception message;
total code returns plain values.
-/

/-! ## Save file structure constants (parse_save.py lines 24-41) -/

def SECTOR_SIZE : Nat := 4096
def SECTOR_DATA_SIZE : Nat := 3968
def SECTOR_FOOTER_SIZE : Nat := 12
def SAVEBLOCK1_SIZE : Nat := SECTOR_DATA_SIZE * 4
def EMERALD_SIGNATURE : Nat := 0x08012025
def PARTY_START_OFFSET : Nat := 0x6A8
def PARTY_POKEMON_SIZE : Nat := 104
def MAX_PARTY_SIZE : Nat := 6

/-! ## Byte buffers -/

/-- A loaded save buffer (Python `bytes`): a length and the byte at each
index below the length. -/
structure ByteBuf where
  len : Nat
  get : Nat → Nat

/-- Little-endian 16-bit read at offset `o` (struct.unpack "<H"). -/
def le16 (b : ByteBuf) (o : Nat) : Nat :=
  b.get o + 256 * b.get (o + 1)

/-- Little-endian 32-bit read at offset `o` (struct.unpack "<I"). -/
def le32 (b : ByteBuf) (o : Nat) : Nat :=
  b.get o + 256 * b.get (o + 1) + 65536 * b.get (o + 2) + 16777216 * b.get (o + 3)

/-- Python slice `b[start : start + n]` as a buffer: it is clamped to the
end of the source buffer. -/
def ByteBuf.slice (b : ByteBuf) (start n : Nat) : ByteBuf :=
  ⟨min (start + n) b.len - min start b.len, fun j => b.get (start + j)⟩

/-- Python slice `b[start : start + n]` materialised as a byte list:
elements are taken while the index stays below the buffer length. -/
def sliceList (b : ByteBuf) : Nat → Nat → List Nat
  | _, 0 => []
  | start, n + 1 =>
    if start < b.len then b.get start :: sliceList b (start + 1) n else []

/-! ## Sector checksum (parse_save.py lines 678-689)

`calculate_sector_checksum`: buffers shorter than the fixed data size give
checksum 0; otherwise the data is read as little-endian 32-bit words
(`range(0, SECTOR_DATA_SIZE, 4)`, so 992 words), summed as an unbounded
Python integer, and the sum is folded to 16 bits once at the end.
`x >> 16` is `x / 65536` and `x & 0xFFFF` is `x % 65536` on naturals. -/

def calculate_sector_checksum (sector_data : ByteBuf) : Nat :=
  if sector_data.len < SECTOR_DATA_SIZE then 0
  else
    let checksum :=
      ((List.range (SECTOR_DATA_SIZE / 4)).map (fun k =>
        if 4 * k + 4 ≤ sector_data.len then le32 sector_data (4 * k) else 0)).sum
    (checksum / 65536 + checksum % 65536) % 65536

/-- The reference checksum from the spec's words: interpret the buffer as
992 little-endian 32-bit words, sum them with 32-bit wraparound, then fold
the 32-bit sum into 16 bits as `((sum >> 16) + (sum & 0xFFFF)) & 0xFFFF`. -/
def refSectorChecksum (sector_data : ByteBuf) : Nat :=
  let s := ((List.range 992).map (fun k => le32 sector_data (4 * k))).foldl
    (fun a w => (a + w) % 4294967296) 0
  (s / 65536 + s % 65536) % 65536

/-! ## Helper lemmas for the checksum equivalence -/

theorem foldl_wrap_eq_sum_mod (l : List Nat) :
    ∀ a : Nat, l.foldl (fun a w => (a + w) % 4294967296) (a % 4294967296)
      = (a + l.sum) % 4294967296 := by
  induction l with
  | nil => intro a; simp
  | cons x t ih =>
    intro a
    have h1 : (a % 4294967296 + x) % 4294967296 = (a + x) % 4294967296 :=
      Nat.mod_add_mod a 4294967296 x
    simp only [List.foldl_cons, List.sum_cons, h1]
    calc List.foldl (fun a w => (a + w) % 4294967296) ((a + x) % 4294967296) t
        = ((a + x) + t.sum) % 4294967296 := ih (a + x)
      _ = (a + (x + t.sum)) % 4294967296 := by ring_nf

theorem fold16_of_mod (S : Nat) :
    ((S % 4294967296) / 65536 + (S % 4294967296) % 65536) % 65536
      = (S / 65536 + S % 65536) % 65536 := by
  have h1 : (S % 4294967296) % 65536 = S % 65536 :=
    Nat.mod_mod_of_dvd S (by norm_num)
  have h2 : (S % 4294967296) / 65536 = S / 65536 % 65536 := by
    have : (4294967296 : Nat) = 65536 * 65536 := by norm_num
    rw [this, Nat.mod_mul_right_div_self]
  rw [h1, h2, Nat.mod_add_mod]

/-- C1: For every byte buffer of exactly 3968 bytes, the implementation's
unbounded integer sum followed by one fold-and-mask equals the
wraparound-sum-then-fold reference checksum. -/
theorem checksum_unbounded_eq_wraparound (d : ByteBuf) (h : d.len = SECTOR_DATA_SIZE) :
    calculate_sector_checksum d = refSectorChecksum d := by
  unfold calculate_sector_checksum refSectorChecksum
  rw [if_neg (by omega)]
  have hw : (List.range (SECTOR_DATA_SIZE / 4)).map (fun k =>
        if 4 * k + 4 ≤ d.len then le32 d (4 * k) else 0)
      = (List.range 992).map (fun k => le32 d (4 * k)) := by
    have h992 : SECTOR_DATA_SIZE / 4 = 992 := by norm_num [SECTOR_DATA_SIZE]
    rw [h992]
    refine List.map_congr_left ?_
    intro k hk
    have hk992 : k < 992 := List.mem_range.mp hk
    rw [if_pos (by rw [h]; simp only [SECTOR_DATA_SIZE]; omega)]
  rw [hw]
  have hfold := foldl_wrap_eq_sum_mod ((List.range 992).map (fun k => le32 d (4 * k))) 0
  simp only [Nat.zero_mod, Nat.zero_add] at hfold
  rw [hfold]
  exact (fold16_of_mod _).symm

/-- C1 witness: the theorem applied at the all-zero 3968-byte buffer. -/
theorem checksum_unbounded_eq_wraparound_witness :
    calculate_sector_checksum ⟨3968, fun _ => 0⟩ = refSectorChecksum ⟨3968, fun _ => 0⟩ :=
  checksum_unbounded_eq_wraparound ⟨3968, fun _ => 0⟩ (by rfl)

/-! ## Sector footers (parse_save.py lines 240-271)

`get_sector_info`: raises `ValueError("Save data not loaded")` when the
loaded buffer is falsy (`None` or empty `bytes`); otherwise it never
raises: a footer range beyond the buffer, a signature mismatch or a
checksum mismatch each only produce `valid = False`.  The total core is
`get_sector_info_core`; the wrapper models the raise as `Except.error`. -/

/-- One sector footer as parsed: id (u16, or -1 for an out-of-range
footer), stored checksum (u16), counter (u32), and the validity flag. -/
structure SectorInfo where
  id : Int
  checksum : Nat
  counter : Nat
  valid : Bool
deriving DecidableEq

/-- Footer offset of a sector: `sector_index * SECTOR_SIZE + SECTOR_SIZE -
SECTOR_FOOTER_SIZE`. -/
def footerOffset (sector_index : Nat) : Nat :=
  sector_index * SECTOR_SIZE + SECTOR_SIZE - SECTOR_FOOTER_SIZE

/-- The body of `get_sector_info` after the loaded-data check. -/
def get_sector_info_core (save_data : ByteBuf) (sector_index : Nat) : SectorInfo :=
  if save_data.len < footerOffset sector_index + SECTOR_FOOTER_SIZE then
    ⟨-1, 0, 0, false⟩
  else
    let sector_id := le16 save_data (footerOffset sector_index)
    let checksum := le16 save_data (footerOffset sector_index + 2)
    let signature := le32 save_data (footerOffset sector_index + 4)
    let counter := le32 save_data (footerOffset sector_index + 8)
    if signature ≠ EMERALD_SIGNATURE then ⟨sector_id, checksum, counter, false⟩
    else
      let sector_data := save_data.slice (sector_index * SECTOR_SIZE) SECTOR_DATA_SIZE
      let calculated_checksum := calculate_sector_checksum sector_data
      ⟨sector_id, checksum, counter, calculated_checksum == checksum⟩

/-- `get_sector_info` with the `if not self.save_data: raise ValueError`
guard: an empty loaded buffer raises. -/
def get_sector_info (save_data : ByteBuf) (sector_index : Nat) : Except String SectorInfo :=
  if save_data.len = 0 then .error "Save data not loaded"
  else .ok (get_sector_info_core save_data sector_index)

/-! ## Slot selection (parse_save.py lines 273-286) -/

/-- The sector indices scanned for slot 1: `range(18)`. -/
def slot1Range : List Nat := List.range 18

/-- The sector indices scanned for slot 2: `range(14, 32)`. -/
def slot2Range : List Nat := List.range' 14 18

/-- Counters of the valid sectors in a scanned range (the generator
`get_sector_info(i).counter for i in r if get_sector_info(i).valid`). -/
def slotValidCounters (save_data : ByteBuf) (r : List Nat) : List Nat :=
  (r.filter (fun i => (get_sector_info_core save_data i).valid)).map
    (fun i => (get_sector_info_core save_data i).counter)

/-- `max(..., default=0)` over slot 1's valid-sector counters. -/
def slot1_counter (save_data : ByteBuf) : Nat :=
  (slotValidCounters save_data slot1Range).foldl Nat.max 0

/-- `max(..., default=0)` over slot 2's valid-sector counters. -/
def slot2_counter (save_data : ByteBuf) : Nat :=
  (slotValidCounters save_data slot2Range).foldl Nat.max 0

/-- Auto-detection body: `14 if slot2_counter >= slot1_counter else 0`. -/
def determine_active_slot_core (save_data : ByteBuf) : Nat :=
  if slot1_counter save_data ≤ slot2_counter save_data then 14 else 0

/-- `determine_active_slot`: with a forced slot it returns before touching
the buffer; otherwise the first `get_sector_info` call raises on an empty
buffer. -/
def determine_active_slot (save_data : ByteBuf) (forced_slot : Option Nat) :
    Except String Nat :=
  match forced_slot with
  | some s => .ok (if s = 1 then 0 else 14)
  | none =>
    if save_data.len = 0 then .error "Save data not loaded"
    else .ok (determine_active_slot_core save_data)

/-! ## Sector map building (parse_save.py lines 315-361)

The Python dict `sector_id -> value` is modelled as a function
`Int → Option value` updated by `mapInsert`. -/

/-- One dict update `m[k] = v`. -/
def mapInsert {α : Type} (m : Int → Option α) (k : Int) (v : α) : Int → Option α :=
  fun x => if x = k then some v else m x

/-- Auto-detection scan step over `all_sectors`: a valid sector claims its
id when the id is absent or its counter is strictly greater. -/
def autoStep (save_data : ByteBuf) (m : Int → Option (Nat × Nat)) (i : Nat) :
    Int → Option (Nat × Nat) :=
  let s := get_sector_info_core save_data i
  if s.valid then
    match m s.id with
    | none => mapInsert m s.id (i, s.counter)
    | some p => if p.2 < s.counter then mapInsert m s.id (i, s.counter) else m
  else m

/-- `all_sectors` after the auto-detection scan of `range(32)`. -/
def autoAll (save_data : ByteBuf) : Int → Option (Nat × Nat) :=
  (List.range 32).foldl (autoStep save_data) (fun _ => none)

/-- Forced-slot primary range: `range(18) if forced == 1 else range(14, 32)`. -/
def forcedPrimaryRange (s : Nat) : List Nat :=
  if s = 1 then slot1Range else slot2Range

/-- Forced-slot other range: `range(14, 32) if forced == 1 else range(18)`. -/
def forcedOtherRange (s : Nat) : List Nat :=
  if s = 1 then slot2Range else slot1Range

/-- Forced-slot primary collection step: every valid sector overwrites
`sector_map[id]` with its physical index (last write wins). -/
def primStep (save_data : ByteBuf) (m : Int → Option Nat) (i : Nat) :
    Int → Option Nat :=
  let s := get_sector_info_core save_data i
  if s.valid then mapInsert m s.id i else m

/-- The map after the forced-slot primary loop. -/
def primMap (save_data : ByteBuf) (s : Nat) : Int → Option Nat :=
  (forcedPrimaryRange s).foldl (primStep save_data) (fun _ => none)

/-- Forced-slot recovery step over the other range, carrying the map and
the still-missing critical id list. -/
def recovStep (save_data : ByteBuf) (st : (Int → Option Nat) × List Int) (i : Nat) :
    (Int → Option Nat) × List Int :=
  let s := get_sector_info_core save_data i
  if s.valid = true ∧ s.id ∈ st.2 then (mapInsert st.1 s.id i, st.2.erase s.id)
  else st

/-- The forced-slot map: primary loop, then recovery of the missing
critical ids `[i for i in range(5) if i not in sector_map]` from the other
range (the remaining-missing warning is only printed). -/
def forcedMap (save_data : ByteBuf) (s : Nat) : Int → Option Nat :=
  let m1 := primMap save_data s
  let missing_critical :=
    ((List.range 5).map (fun n => (n : Int))).filter (fun id => m1 id = none)
  ((forcedOtherRange s).foldl (recovStep save_data) (m1, missing_critical)).1

/-- `build_sector_map` body: auto mode keeps, per id, the physical index
with the strictly largest counter seen over `range(32)`; forced mode uses
the primary loop plus recovery. -/
def build_sector_map_core (save_data : ByteBuf) : Option Nat → (Int → Option Nat)
  | none => fun id => (autoAll save_data id).map Prod.fst
  | some s => forcedMap save_data s

/-- `build_sector_map`: both modes call `get_sector_info`, so an empty
buffer raises. -/
def build_sector_map (save_data : ByteBuf) (forced_slot : Option Nat) :
    Except String (Int → Option Nat) :=
  if save_data.len = 0 then .error "Save data not loaded"
  else .ok (build_sector_map_core save_data forced_slot)

/-! ## Save block extraction (parse_save.py lines 363-388) -/

/-- Splice of a Python `bytearray` slice assignment
`out[co : co + n] = repl`: the range is replaced by `repl`. -/
def spliceBytes (out : List Nat) (co n : Nat) (repl : List Nat) : List Nat :=
  out.take co ++ repl ++ out.drop (co + n)

/-- One copy step of `extract_saveblock1`: the present id's sector data
region `save_data[idx*4096 : idx*4096+3968]` is written over the byte
range `(id-1)*3968 .. +3968` of the output buffer. -/
def sb1Step (save_data : ByteBuf) (sector_map : Int → Option Nat)
    (out : List Nat) (id : Nat) : List Nat :=
  match sector_map (id : Int) with
  | some sector_idx =>
    let sector_data := sliceList save_data (sector_idx * SECTOR_SIZE) SECTOR_DATA_SIZE
    spliceBytes out ((id - 1) * SECTOR_DATA_SIZE) SECTOR_DATA_SIZE
      (sector_data.take SECTOR_DATA_SIZE)
  | none => out

/-- `saveblock1_sectors`: the logical ids `range(1, 5)` present in the
sector map. -/
def saveblock1_sectors (sector_map : Int → Option Nat) : List Nat :=
  (List.range' 1 4).filter (fun (id : Nat) => (sector_map (id : Int)).isSome)

/-- `extract_saveblock1`: fails when the buffer is empty or when none of
the logical ids 1..4 is in the sector map; otherwise copies each present
id's sector data region into a zero-filled buffer of four data regions. -/
def extract_saveblock1 (save_data : ByteBuf) (sector_map : Int → Option Nat) :
    Except String (List Nat) :=
  if save_data.len = 0 then .error "Save data not loaded"
  else if saveblock1_sectors sector_map = [] then .error "No SaveBlock1 sectors found"
  else
    .ok ((saveblock1_sectors sector_map).foldl (sb1Step save_data sector_map)
      (List.replicate SAVEBLOCK1_SIZE 0))

/-- `extract_saveblock2`: requires logical id 0 in the sector map. -/
def extract_saveblock2 (save_data : ByteBuf) (sector_map : Int → Option Nat) :
    Except String (List Nat) :=
  if save_data.len = 0 then .error "Save data not loaded"
  else
    match sector_map 0 with
    | none => .error "SaveBlock2 sector (ID 0) not found"
    | some sector_idx => .ok (sliceList save_data (sector_idx * SECTOR_SIZE) SECTOR_DATA_SIZE)

/-! ## Party records (parse_save.py lines 390-406)

A `PokemonData` structure built by `from_buffer_copy` is represented by
its underlying 104-byte window (the `raw_bytes` the parser itself keeps);
fields are little-endian reads at their fixed offsets, e.g. `speciesId`
is the u16 at offset 0x28. -/

/-- Little-endian 16-bit read from a byte list (missing bytes read 0). -/
def le16l (w : List Nat) (o : Nat) : Nat :=
  w.getD o 0 + 256 * w.getD (o + 1) 0

/-- Little-endian 32-bit read from a byte list. -/
def le32l (w : List Nat) (o : Nat) : Nat :=
  w.getD o 0 + 256 * w.getD (o + 1) 0 + 65536 * w.getD (o + 2) 0
    + 16777216 * w.getD (o + 3) 0

/-- The `speciesId` field: u16 at offset 0x28 of a record window. -/
def speciesOfWindow (w : List Nat) : Nat := le16l w 0x28

/-- The 104-byte window of party slot `slot`:
`saveblock1_data[0x6A8 + slot * 104 : ... + 104]`. -/
def slotWindow (saveblock1_data : List Nat) (slot : Nat) : List Nat :=
  (saveblock1_data.drop (PARTY_START_OFFSET + slot * PARTY_POKEMON_SIZE)).take
    PARTY_POKEMON_SIZE

/-- `ctypes.sizeof(PokemonData)`: the packed field widths sum to 104. -/
def PokemonData_sizeof : Nat := 104

/-- The party loop: at each slot the window is sliced; a truncated window
(`len < PARTY_POKEMON_SIZE`, and the identical `len <
ctypes.sizeof(PokemonData)` check) or a zero `speciesId` breaks. -/
def partyLoop (saveblock1_data : List Nat) : Nat → Nat → List (List Nat)
  | 0, _ => []
  | fuel + 1, slot =>
    let pokemon_data := slotWindow saveblock1_data slot
    if pokemon_data.length < PARTY_POKEMON_SIZE then []
    else if pokemon_data.length < PokemonData_sizeof then []
    else if speciesOfWindow pokemon_data = 0 then []
    else pokemon_data :: partyLoop saveblock1_data fuel (slot + 1)

/-- `parse_party_pokemon`: `for slot in range(MAX_PARTY_SIZE)` with the
break conditions above. -/
def parse_party_pokemon (saveblock1_data : List Nat) : List (List Nat) :=
  partyLoop saveblock1_data MAX_PARTY_SIZE 0

/-! ## Individual values (parse_save.py lines 181-192) -/

/-- The `ivs` property of `PokemonData`: six 5-bit groups of the 32-bit
`ivData` field, low-to-high, each `(ivData >> 5*i) & 0x1F`. -/
def PokemonData_ivs (ivData : Nat) : List Nat :=
  [ivData &&& 0x1F,
   (ivData >>> 5) &&& 0x1F,
   (ivData >>> 10) &&& 0x1F,
   (ivData >>> 15) &&& 0x1F,
   (ivData >>> 20) &&& 0x1F,
   (ivData >>> 25) &&& 0x1F]

/-- Storing a value into the 32-bit `ivData` field (`ctypes.c_uint32`)
keeps its low 32 bits. -/
def storeIvData (v : Nat) : Nat := v % 4294967296

/-- The claim's packing: the sum of six values each shifted left by
`5*i`, stored into the 32-bit field. -/
def packIVs (v0 v1 v2 v3 v4 v5 : Nat) : Nat :=
  storeIvData (v0 + v1 * 32 + v2 * 1024 + v3 * 32768 + v4 * 1048576 + v5 * 33554432)

/-! ## SaveBlock2 fields and the full parse (parse_save.py lines 90-98,
408-440) -/

/-- `ctypes.sizeof(SaveBlock2)`: 8 + 8 + 4 + 1 + 1 = 22 packed bytes. -/
def SaveBlock2_sizeof : Nat := 22

/-- `decode_pokemon_string` keeps the bytes before the 0xFF terminator;
the byte-to-character translation goes through the external character-map
service (a JSON table outside the core), so the decoded name is modelled
as that byte sequence. -/
def decode_pokemon_string (encoded_bytes : List Nat) : List Nat :=
  encoded_bytes.takeWhile (fun b => b ≠ 0xFF)

/-- `parse_player_name`: the 8-byte `playerName` field at offset 0. -/
def parse_player_name (saveblock2_data : List Nat) : Except String (List Nat) :=
  if saveblock2_data.length < SaveBlock2_sizeof then .error "SaveBlock2 data too small"
  else .ok (decode_pokemon_string (saveblock2_data.take 8))

/-- Play time: `playTimeHours` (u32 at 16), `playTimeMinutes` (u8 at 20),
`playTimeSeconds` (u8 at 21). -/
structure PlayTime where
  hours : Nat
  minutes : Nat
  seconds : Nat

/-- `parse_play_time` reads the three play-time fields of `SaveBlock2`. -/
def parse_play_time (saveblock2_data : List Nat) : Except String PlayTime :=
  if saveblock2_data.length < SaveBlock2_sizeof then .error "SaveBlock2 data too small"
  else .ok ⟨le32l saveblock2_data 16, saveblock2_data.getD 20 0, saveblock2_data.getD 21 0⟩

/-- The record `parse_save_file` returns. -/
structure ParseResult where
  party_pokemon : List (List Nat)
  player_name : List Nat
  play_time : PlayTime
  active_slot : Nat
  sector_map : Int → Option Nat

/-- `parse_save_file`: the pipeline after `load_save_file`, in source
order; any step's exception propagates. -/
def parse_save_file (save_data : ByteBuf) (forced_slot : Option Nat) :
    Except String ParseResult := do
  let active_slot_start ← determine_active_slot save_data forced_slot
  let sector_map ← build_sector_map save_data forced_slot
  let saveblock1_data ← extract_saveblock1 save_data sector_map
  let saveblock2_data ← extract_saveblock2 save_data sector_map
  let player_name ← parse_player_name saveblock2_data
  let party_pokemon := parse_party_pokemon saveblock1_data
  let play_time ← parse_play_time saveblock2_data
  return ⟨party_pokemon, player_name, play_time, active_slot_start, sector_map⟩

/-! ## C6: individual-value packing round-trip -/

theorem and_31_eq_mod_32 (x : Nat) : x &&& 31 = x % 32 := by
  have h := Nat.and_pow_two_sub_one_eq_mod x 5
  norm_num at h
  exact h

/-- C6: packing six values in [0,31] into the 32-bit ivData field as the
sum of each value shifted left by 5*i and reading the ivs property
recovers exactly the six values. -/
theorem iv_pack_unpack_roundtrip (v0 v1 v2 v3 v4 v5 : Nat)
    (h0 : v0 ≤ 31) (h1 : v1 ≤ 31) (h2 : v2 ≤ 31)
    (h3 : v3 ≤ 31) (h4 : v4 ≤ 31) (h5 : v5 ≤ 31) :
    PokemonData_ivs (packIVs v0 v1 v2 v3 v4 v5) = [v0, v1, v2, v3, v4, v5] := by
  have hlt : v0 + v1 * 32 + v2 * 1024 + v3 * 32768 + v4 * 1048576 + v5 * 33554432
      < 4294967296 := by omega
  unfold PokemonData_ivs packIVs storeIvData
  rw [Nat.mod_eq_of_lt hlt]
  simp only [Nat.shiftRight_eq_div_pow, and_31_eq_mod_32]
  norm_num
  refine ⟨?_, ?_, ?_, ?_, ?_, ?_⟩ <;> omega

/-- C6 witness: the round-trip at (31, 0, 15, 7, 31, 1). -/
theorem iv_pack_unpack_roundtrip_witness :
    PokemonData_ivs (packIVs 31 0 15 7 31 1) = [31, 0, 15, 7, 31, 1] :=
  iv_pack_unpack_roundtrip 31 0 15 7 31 1 (by decide) (by decide) (by decide)
    (by decide) (by decide) (by decide)

/-! ## C9: the two scanned slot regions are not disjoint -/

/-- C9 counterexample: sector index 14 is scanned both in the slot 1 range
(range(18)) and in the slot 2 range (range(14, 32)), so the two regions
are not disjoint as claimed. -/
theorem slot_regions_overlap_counterexample :
    14 ∈ slot1Range ∧ 14 ∈ slot2Range := by decide

/-- C9 amended: the two scanned regions overlap exactly at sector indices
14..17; an index belongs to both ranges iff it lies in 14..17. -/
theorem slot_regions_overlap_amended (i : Nat) :
    (i ∈ slot1Range ∧ i ∈ slot2Range) ↔ (14 ≤ i ∧ i < 18) := by
  simp only [slot1Range, slot2Range, List.mem_range, List.mem_range'_1]
  omega

/-! ## C10: the short-buffer checksum fallback -/

/-- C10: a buffer shorter than 3968 bytes gives checksum 0 whatever its
bytes are, and once a sector's footer bounds check has passed the sector
data slice has the full 3968 bytes, so the fallback branch cannot be
reached from get_sector_info. -/
theorem short_checksum_fallback_unreachable (n i : Nat) (f : Nat → Nat) (buf : ByteBuf) :
    (n < SECTOR_DATA_SIZE → calculate_sector_checksum ⟨n, f⟩ = 0) ∧
    (¬ buf.len < footerOffset i + SECTOR_FOOTER_SIZE →
      (buf.slice (i * SECTOR_SIZE) SECTOR_DATA_SIZE).len = SECTOR_DATA_SIZE ∧
      ¬ (buf.slice (i * SECTOR_SIZE) SECTOR_DATA_SIZE).len < SECTOR_DATA_SIZE) := by
  constructor
  · intro h
    unfold calculate_sector_checksum
    rw [if_pos h]
  · intro h
    have hfo : i * SECTOR_SIZE + SECTOR_SIZE ≤ buf.len := by
      simp only [footerOffset, SECTOR_SIZE, SECTOR_FOOTER_SIZE] at h ⊢
      omega
    have hlen : (buf.slice (i * SECTOR_SIZE) SECTOR_DATA_SIZE).len = SECTOR_DATA_SIZE := by
      simp only [ByteBuf.slice, SECTOR_SIZE, SECTOR_DATA_SIZE] at hfo ⊢
      omega
    exact ⟨hlen, by omega⟩

/-- C10 witness: the all-zero empty buffer hits the fallback, and a
4096-byte buffer whose sector 0 footer is in range has a full-size data
slice. -/
theorem short_checksum_fallback_unreachable_witness :
    calculate_sector_checksum ⟨0, fun _ => 0⟩ = 0 ∧
    (ByteBuf.slice ⟨4096, fun _ => 0⟩ (0 * SECTOR_SIZE) SECTOR_DATA_SIZE).len
      = SECTOR_DATA_SIZE :=
  ⟨(short_checksum_fallback_unreachable 0 0 (fun _ => 0) ⟨4096, fun _ => 0⟩).1 (by decide),
   ((short_checksum_fallback_unreachable 0 0 (fun _ => 0) ⟨4096, fun _ => 0⟩).2 (by decide)).1⟩

/-! ## C8: per-sector anomalies and the empty-buffer raise -/

/-- C8 counterexample: the claim says get_sector_info never raises for any
loaded save buffer, but a loaded empty buffer is falsy in the
`if not self.save_data` guard and raises ValueError("Save data not
loaded") instead of returning an invalid record. -/
theorem empty_buffer_raises_counterexample :
    get_sector_info ⟨0, fun _ => 0⟩ 0 = .error "Save data not loaded" := rfl

/-- C8 amended: for every nonempty loaded buffer and every sector index,
get_sector_info returns a record and never raises: an out-of-range footer
gives the invalid record (-1, 0, 0, false); otherwise the parsed id,
checksum and counter are returned, and a signature or checksum mismatch
only makes the validity flag false. -/
theorem sector_info_no_raise_amended (buf : ByteBuf) (i : Nat) (h : buf.len ≠ 0) :
    get_sector_info buf i = .ok (get_sector_info_core buf i) ∧
    (buf.len < footerOffset i + SECTOR_FOOTER_SIZE →
      get_sector_info_core buf i = ⟨-1, 0, 0, false⟩) ∧
    (¬ buf.len < footerOffset i + SECTOR_FOOTER_SIZE →
      (get_sector_info_core buf i).id = (le16 buf (footerOffset i) : Int) ∧
      (get_sector_info_core buf i).checksum = le16 buf (footerOffset i + 2) ∧
      (get_sector_info_core buf i).counter = le32 buf (footerOffset i + 8) ∧
      ((get_sector_info_core buf i).valid = true →
        le32 buf (footerOffset i + 4) = EMERALD_SIGNATURE ∧
        calculate_sector_checksum (buf.slice (i * SECTOR_SIZE) SECTOR_DATA_SIZE)
          = le16 buf (footerOffset i + 2))) := by
  refine ⟨by unfold get_sector_info; rw [if_neg h], ?_, ?_⟩
  · intro hb
    unfold get_sector_info_core
    rw [if_pos hb]
  · intro hb
    simp only [get_sector_info_core]
    rw [if_neg hb]
    by_cases hsig : le32 buf (footerOffset i + 4) ≠ EMERALD_SIGNATURE
    · rw [if_pos hsig]
      refine ⟨rfl, rfl, rfl, fun hv => ?_⟩
      simp at hv
    · rw [if_neg hsig]
      push_neg at hsig
      refine ⟨rfl, rfl, rfl, fun hv => ⟨hsig, ?_⟩⟩
      simpa [beq_iff_eq] using hv

/-- C8 amended witness: a one-byte buffer never raises at sector 0. -/
theorem sector_info_no_raise_amended_witness :
    get_sector_info ⟨1, fun _ => 0⟩ 0 = .ok (get_sector_info_core ⟨1, fun _ => 0⟩ 0) :=
  (sector_info_no_raise_amended ⟨1, fun _ => 0⟩ 0 (by decide)).1

/-! ## C2: slot selection by maximum counter -/

/-- The spec's description of a region's maximum counter: 0 when the
region has no valid sector, otherwise a value attained by a valid sector
of the region and dominating every valid sector's counter there. -/
def isRegionMaxCounter (buf : ByteBuf) (r : List Nat) (c : Nat) : Prop :=
  ((∀ i ∈ r, (get_sector_info_core buf i).valid = false) ∧ c = 0) ∨
  ((∃ i ∈ r, (get_sector_info_core buf i).valid = true ∧
      (get_sector_info_core buf i).counter = c) ∧
    ∀ i ∈ r, (get_sector_info_core buf i).valid = true →
      (get_sector_info_core buf i).counter ≤ c)

instance (buf : ByteBuf) (r : List Nat) (c : Nat) :
    Decidable (isRegionMaxCounter buf r c) := by
  unfold isRegionMaxCounter
  infer_instance

theorem foldl_max_acc (l : List Nat) :
    ∀ a, l.foldl Nat.max a = Nat.max a (l.foldl Nat.max 0) := by
  induction l with
  | nil => intro a; simp
  | cons x t ih =>
    intro a
    simp only [List.foldl_cons]
    have hzx : Nat.max 0 x = x := Nat.max_eq_right (Nat.zero_le x)
    rw [ih (Nat.max a x), ih (Nat.max 0 x), hzx]
    exact Nat.max_assoc a x (t.foldl Nat.max 0)

theorem foldl_max_le (l : List Nat) (x : Nat) (h : x ∈ l) : x ≤ l.foldl Nat.max 0 := by
  induction l with
  | nil => cases h
  | cons y t ih =>
    rw [List.foldl_cons, foldl_max_acc t (Nat.max 0 y)]
    rcases List.mem_cons.mp h with h1 | h2
    · subst h1
      exact Nat.le_trans (Nat.le_max_right 0 x) (Nat.le_max_left _ _)
    · exact Nat.le_trans (ih h2) (Nat.le_max_right _ _)

theorem foldl_max_mem_of_ne_nil (l : List Nat) (h : l ≠ []) :
    l.foldl Nat.max 0 ∈ l := by
  induction l with
  | nil => cases h rfl
  | cons y t ih =>
    rw [List.foldl_cons, foldl_max_acc t (Nat.max 0 y)]
    cases t with
    | nil => simp [Nat.max_eq_right (Nat.zero_le y)]
    | cons z t2 =>
      have hmem := ih (by simp)
      rcases Nat.le_total (Nat.max 0 y) ((z :: t2).foldl Nat.max 0) with hle | hle
      · have heq : (Nat.max 0 y).max ((z :: t2).foldl Nat.max 0)
            = (z :: t2).foldl Nat.max 0 := Nat.max_eq_right hle
        rw [heq]
        exact List.mem_cons_of_mem y hmem
      · have heq : (Nat.max 0 y).max ((z :: t2).foldl Nat.max 0) = y := by
          have h1 : (Nat.max 0 y).max ((z :: t2).foldl Nat.max 0) = Nat.max 0 y :=
            Nat.max_eq_left hle
          have h2 : Nat.max 0 y = y := Nat.max_eq_right (Nat.zero_le y)
          rw [h1, h2]
        rw [heq]
        exact List.mem_cons_self y (z :: t2)

theorem slotMax_isRegionMax (buf : ByteBuf) (r : List Nat) :
    isRegionMaxCounter buf r ((slotValidCounters buf r).foldl Nat.max 0) := by
  by_cases hv : ∀ i ∈ r, (get_sector_info_core buf i).valid = false
  · left
    refine ⟨hv, ?_⟩
    have hnil : slotValidCounters buf r = [] := by
      unfold slotValidCounters
      rw [List.filter_eq_nil_iff.mpr (fun a ha => by simp [hv a ha])]
      rfl
    rw [hnil]
    rfl
  · right
    push_neg at hv
    obtain ⟨i0, hi0, hvalid⟩ := hv
    have hvalid' : (get_sector_info_core buf i0).valid = true := by
      cases hval : (get_sector_info_core buf i0).valid
      · exact absurd hval hvalid
      · rfl
    have hne : slotValidCounters buf r ≠ [] := by
      unfold slotValidCounters
      intro hnil
      have hfil : (r.filter (fun i => (get_sector_info_core buf i).valid)) = [] :=
        List.map_eq_nil_iff.mp hnil
      have := List.filter_eq_nil_iff.mp hfil i0 hi0
      simp [hvalid'] at this
    have hmem := foldl_max_mem_of_ne_nil _ hne
    unfold slotValidCounters at hmem
    obtain ⟨j, hj, hjc⟩ := List.mem_map.mp hmem
    have hjf := List.mem_filter.mp hj
    refine ⟨⟨j, hjf.1, by simpa using hjf.2, hjc⟩, ?_⟩
    intro i hi hvi
    apply foldl_max_le
    unfold slotValidCounters
    exact List.mem_map.mpr ⟨i, List.mem_filter.mpr ⟨hi, by simp [hvi]⟩, rfl⟩

theorem isRegionMax_unique (buf : ByteBuf) (r : List Nat) (c c' : Nat)
    (h : isRegionMaxCounter buf r c) (h' : isRegionMaxCounter buf r c') : c = c' := by
  rcases h with ⟨hall, rfl⟩ | ⟨⟨i, hi, hvi, hci⟩, hdom⟩
  · rcases h' with ⟨_, rfl⟩ | ⟨⟨j, hj, hvj, _⟩, _⟩
    · rfl
    · exact absurd hvj (by simp [hall j hj])
  · rcases h' with ⟨hall', rfl⟩ | ⟨⟨j, hj, hvj, hcj⟩, hdom'⟩
    · exact absurd hvi (by simp [hall' i hi])
    · have h1 : c ≤ c' := hci ▸ hdom' i hi hvi
      have h2 : c' ≤ c := hcj ▸ hdom j hj hvj
      omega

/-- C2 counterexample: the claim quantifies over every save buffer, but on
the loaded empty buffer both regions' maximum valid-sector counters are 0
and the (0, 0) tie should select region B - instead the falsy-buffer guard
in get_sector_info raises ValueError("Save data not loaded"), so nothing
is selected. -/
theorem empty_buffer_slot_selection_counterexample :
    isRegionMaxCounter ⟨0, fun _ => 0⟩ slot1Range 0 ∧
    isRegionMaxCounter ⟨0, fun _ => 0⟩ slot2Range 0 ∧
    determine_active_slot ⟨0, fun _ => 0⟩ none = .error "Save data not loaded" ∧
    ¬ (determine_active_slot ⟨0, fun _ => 0⟩ none = .ok 14) :=
  ⟨by decide, by decide, rfl, by
    intro h
    rw [show determine_active_slot ⟨0, fun _ => 0⟩ none
        = Except.error "Save data not loaded" from rfl] at h
    cases h⟩

/-- C2 amended: with no forced slot, on every nonempty save buffer the
parser selects region B (active_slot_start = 14) iff region B's maximum
valid-sector counter is at least region A's (each 0 when the region has no
valid sector), and region A (active_slot_start = 0) otherwise; ties favor
region B.  (The loaded empty buffer instead raises ValueError from the
falsy-buffer guard.) -/
theorem slot_selection_max_counter (buf : ByteBuf) (ca cb : Nat) (h : buf.len ≠ 0)
    (ha : isRegionMaxCounter buf slot1Range ca)
    (hb : isRegionMaxCounter buf slot2Range cb) :
    (determine_active_slot buf none = .ok 14 ↔ ca ≤ cb) ∧
    (determine_active_slot buf none = .ok 0 ↔ ¬ ca ≤ cb) := by
  have hca : ca = slot1_counter buf :=
    isRegionMax_unique buf slot1Range ca _ ha (slotMax_isRegionMax buf slot1Range)
  have hcb : cb = slot2_counter buf :=
    isRegionMax_unique buf slot2Range cb _ hb (slotMax_isRegionMax buf slot2Range)
  unfold determine_active_slot
  rw [if_neg h]
  unfold determine_active_slot_core
  rw [hca, hcb]
  by_cases hle : slot1_counter buf ≤ slot2_counter buf
  · rw [if_pos hle]
    simp [hle]
  · rw [if_neg hle]
    simp [hle]

/-- C2 witness: on a one-byte buffer both regions have no valid sector, so
both maxima are 0 and the tie selects region B. -/
theorem slot_selection_max_counter_witness :
    (determine_active_slot ⟨1, fun _ => 0⟩ none = .ok 14 ↔ (0 : Nat) ≤ 0) ∧
    (determine_active_slot ⟨1, fun _ => 0⟩ none = .ok 0 ↔ ¬ (0 : Nat) ≤ 0) :=
  slot_selection_max_counter ⟨1, fun _ => 0⟩ 0 0 (by decide) (by decide) (by decide)

/-! ## C3: party decoding stops at the first truncated or zero-species slot -/

/-- A party slot whose window does not stop the loop: the window has the
full 104 bytes and a nonzero species id. -/
def goodSlot (buf : List Nat) (i : Nat) : Prop :=
  (slotWindow buf i).length = PARTY_POKEMON_SIZE ∧
  speciesOfWindow (slotWindow buf i) ≠ 0

instance (buf : List Nat) (i : Nat) : Decidable (goodSlot buf i) := by
  unfold goodSlot
  infer_instance

theorem partyLoop_eq_of_stop (buf : List Nat) :
    ∀ k fuel slot, k ≤ fuel →
      (∀ i, i < k → goodSlot buf (slot + i)) →
      (k < fuel → ¬ goodSlot buf (slot + k)) →
      partyLoop buf fuel slot = (List.range k).map (fun i => slotWindow buf (slot + i)) := by
  intro k
  induction k with
  | zero =>
    intro fuel slot hk hgood hstop
    cases fuel with
    | zero => rfl
    | succ f =>
      have hbad := hstop (Nat.succ_pos f)
      simp only [Nat.add_zero] at hbad
      unfold partyLoop goodSlot at *
      have hlen_le : (slotWindow buf slot).length ≤ PARTY_POKEMON_SIZE := by
        unfold slotWindow
        exact List.length_take_le _ _
      by_cases hl : (slotWindow buf slot).length < PARTY_POKEMON_SIZE
      · rw [if_pos hl]
        rfl
      · have hlen104 : (slotWindow buf slot).length = PARTY_POKEMON_SIZE := by omega
        have hsp : speciesOfWindow (slotWindow buf slot) = 0 := by
          by_contra hs
          exact hbad ⟨hlen104, hs⟩
        have hl2 : ¬ ((slotWindow buf slot).length < PokemonData_sizeof) := hl
        rw [if_neg hl, if_neg hl2, if_pos hsp]
        rfl
  | succ k ih =>
    intro fuel slot hk hgood hstop
    cases fuel with
    | zero => omega
    | succ f =>
      have hg0 := hgood 0 (Nat.succ_pos k)
      simp only [Nat.add_zero] at hg0
      obtain ⟨hg0len, hg0sp⟩ := hg0
      have hnl : ¬ ((slotWindow buf slot).length < PARTY_POKEMON_SIZE) := by omega
      have hnl2 : ¬ ((slotWindow buf slot).length < PokemonData_sizeof) := hnl
      unfold partyLoop
      rw [if_neg hnl, if_neg hnl2, if_neg hg0sp]
      have hrec := ih f (slot + 1) (by omega)
        (fun i hi => by
          have := hgood (i + 1) (by omega)
          rwa [show slot + (i + 1) = slot + 1 + i by omega] at this)
        (fun hkf => by
          have := hstop (by omega)
          rwa [show slot + (k + 1) = slot + 1 + k by omega] at this)
      rw [hrec, List.range_succ_eq_map]
      simp only [List.map_cons, List.map_map, Nat.add_zero]
      congr 1
      apply List.map_congr_left
      intro i hi
      simp only [Function.comp_apply]
      rw [show slot + 1 + i = slot + (i + 1) by omega]

/-- C3: parse_party_pokemon returns exactly the windows of the first k
slots, where k is the first slot index (capped at 6) whose window is
truncated or whose species-id field is zero; nothing at or after the
first stopping slot is returned. -/
theorem party_parse_stops_at_first_bad_slot (buf : List Nat) (k : Nat)
    (hk : k ≤ MAX_PARTY_SIZE)
    (hgood : ∀ i, i < k → goodSlot buf i)
    (hstop : k < MAX_PARTY_SIZE → ¬ goodSlot buf k) :
    parse_party_pokemon buf = (List.range k).map (slotWindow buf) := by
  unfold parse_party_pokemon
  have h := partyLoop_eq_of_stop buf k MAX_PARTY_SIZE 0 hk
    (fun i hi => by simpa using hgood i hi)
    (fun hkm => by simpa using hstop hkm)
  simpa using h

/-- A 104-byte party record window with the given species id at offset
0x28 and nonzero filler bytes elsewhere. -/
def partyWindowBytes (species : Nat) : List Nat :=
  List.replicate 40 1 ++ [species % 256, species / 256] ++ List.replicate 62 1

/-- The spec's stop-rule scenario: two active slots, then a zero-species
slot, then a nonzero-garbage slot. -/
def c3buf : List Nat :=
  List.replicate 1704 0 ++ partyWindowBytes 25 ++ partyWindowBytes 25
    ++ partyWindowBytes 0 ++ partyWindowBytes 300

set_option maxRecDepth 20000 in
/-- C3 witness: on the active, active, zero, nonzero-garbage buffer
exactly the first two windows are returned. -/
theorem party_parse_stops_at_first_bad_slot_witness :
    parse_party_pokemon c3buf = (List.range 2).map (slotWindow c3buf) :=
  party_parse_stops_at_first_bad_slot c3buf 2 (by decide) (by decide) (by decide)

/-! ## C4: sector map validity, and the forced-mode counter bug -/

theorem mapInsert_apply {α : Type} (m : Int → Option α) (k : Int) (v : α) (x : Int) :
    mapInsert m k v x = if x = k then some v else m x := rfl

theorem autoStep_invalid (buf : ByteBuf) (m : Int → Option (Nat × Nat)) (i : Nat)
    (hv : ¬ (get_sector_info_core buf i).valid = true) :
    autoStep buf m i = m := by
  simp only [autoStep]
  rw [if_neg hv]

theorem autoStep_none (buf : ByteBuf) (m : Int → Option (Nat × Nat)) (i : Nat)
    (hv : (get_sector_info_core buf i).valid = true)
    (hm : m (get_sector_info_core buf i).id = none) :
    autoStep buf m i
      = mapInsert m (get_sector_info_core buf i).id (i, (get_sector_info_core buf i).counter) := by
  simp only [autoStep, hv, if_true, hm]

theorem autoStep_some (buf : ByteBuf) (m : Int → Option (Nat × Nat)) (i : Nat) (q : Nat × Nat)
    (hv : (get_sector_info_core buf i).valid = true)
    (hm : m (get_sector_info_core buf i).id = some q) :
    autoStep buf m i
      = if q.2 < (get_sector_info_core buf i).counter
        then mapInsert m (get_sector_info_core buf i).id (i, (get_sector_info_core buf i).counter)
        else m := by
  simp only [autoStep, hv, if_true, hm]

theorem autoAll_spec (buf : ByteBuf) :
    ∀ n,
      (∀ id p, ((List.range n).foldl (autoStep buf) (fun _ => none)) id = some p →
        p.1 < n ∧ (get_sector_info_core buf p.1).valid = true ∧
        (get_sector_info_core buf p.1).id = id ∧
        p.2 = (get_sector_info_core buf p.1).counter ∧
        (∀ j, j < n → (get_sector_info_core buf j).valid = true →
          (get_sector_info_core buf j).id = id →
          (get_sector_info_core buf j).counter ≤ p.2)) ∧
      (∀ id, ((List.range n).foldl (autoStep buf) (fun _ => none)) id = none →
        ∀ j, j < n → (get_sector_info_core buf j).valid = true →
          (get_sector_info_core buf j).id ≠ id) := by
  intro n
  induction n with
  | zero =>
    constructor
    · intro id p h
      simp [List.range_zero] at h
    · intro id _ j hj
      omega
  | succ n ih =>
    obtain ⟨ihs, ihn⟩ := ih
    rw [List.range_succ, List.foldl_append, List.foldl_cons, List.foldl_nil]
    set M := (List.range n).foldl (autoStep buf) (fun _ => none) with hM
    have step_from_ihs : ∀ id p, M id = some p →
        p.1 < n + 1 ∧ (get_sector_info_core buf p.1).valid = true ∧
        (get_sector_info_core buf p.1).id = id ∧
        p.2 = (get_sector_info_core buf p.1).counter := by
      intro id p h
      obtain ⟨h1, h2, h3, h4, _⟩ := ihs id p h
      exact ⟨by omega, h2, h3, h4⟩
    by_cases hv : (get_sector_info_core buf n).valid = true
    · cases hm : M (get_sector_info_core buf n).id with
      | none =>
        rw [autoStep_none buf M n hv hm]
        constructor
        · intro id p h
          rw [mapInsert_apply] at h
          by_cases hid : id = (get_sector_info_core buf n).id
          · rw [if_pos hid] at h
            have hp : p = (n, (get_sector_info_core buf n).counter) := by
              injection h with h'
              exact h'.symm
            subst hp
            refine ⟨by omega, hv, hid.symm, rfl, ?_⟩
            intro j hj hvj hidj
            rcases Nat.lt_or_ge j n with hjn | hjn
            · exact absurd hidj (ihn id (hid ▸ hm) j hjn hvj)
            · have hjeq : j = n := by omega
              subst hjeq
              exact Nat.le_refl _
          · rw [if_neg hid] at h
            obtain ⟨h1, h2, h3, h4, h5⟩ := ihs id p h
            refine ⟨by omega, h2, h3, h4, ?_⟩
            intro j hj hvj hidj
            rcases Nat.lt_or_ge j n with hjn | hjn
            · exact h5 j hjn hvj hidj
            · have hjeq : j = n := by omega
              subst hjeq
              exact absurd hidj.symm hid
        · intro id h j hj hvj
          rw [mapInsert_apply] at h
          by_cases hid : id = (get_sector_info_core buf n).id
          · rw [if_pos hid] at h
            cases h
          · rw [if_neg hid] at h
            rcases Nat.lt_or_ge j n with hjn | hjn
            · exact ihn id h j hjn hvj
            · have hjeq : j = n := by omega
              subst hjeq
              exact fun hx => hid hx.symm
      | some q =>
        rw [autoStep_some buf M n q hv hm]
        by_cases hlt : q.2 < (get_sector_info_core buf n).counter
        · rw [if_pos hlt]
          constructor
          · intro id p h
            rw [mapInsert_apply] at h
            by_cases hid : id = (get_sector_info_core buf n).id
            · rw [if_pos hid] at h
              have hp : p = (n, (get_sector_info_core buf n).counter) := by
                injection h with h'
                exact h'.symm
              subst hp
              refine ⟨by omega, hv, hid.symm, rfl, ?_⟩
              intro j hj hvj hidj
              rcases Nat.lt_or_ge j n with hjn | hjn
              · obtain ⟨_, _, _, _, h5q⟩ := ihs (get_sector_info_core buf n).id q hm
                exact Nat.le_trans (h5q j hjn hvj (hidj.trans hid)) (Nat.le_of_lt hlt)
              · have hjeq : j = n := by omega
                subst hjeq
                exact Nat.le_refl _
            · rw [if_neg hid] at h
              obtain ⟨h1, h2, h3, h4, h5⟩ := ihs id p h
              refine ⟨by omega, h2, h3, h4, ?_⟩
              intro j hj hvj hidj
              rcases Nat.lt_or_ge j n with hjn | hjn
              · exact h5 j hjn hvj hidj
              · have hjeq : j = n := by omega
                subst hjeq
                exact absurd hidj.symm hid
          · intro id h j hj hvj
            rw [mapInsert_apply] at h
            by_cases hid : id = (get_sector_info_core buf n).id
            · rw [if_pos hid] at h
              cases h
            · rw [if_neg hid] at h
              rcases Nat.lt_or_ge j n with hjn | hjn
              · exact ihn id h j hjn hvj
              · have hjeq : j = n := by omega
                subst hjeq
                exact fun hx => hid hx.symm
        · rw [if_neg hlt]
          constructor
          · intro id p h
            obtain ⟨h1, h2, h3, h4, h5⟩ := ihs id p h
            refine ⟨by omega, h2, h3, h4, ?_⟩
            intro j hj hvj hidj
            rcases Nat.lt_or_ge j n with hjn | hjn
            · exact h5 j hjn hvj hidj
            · have hjeq : j = n := by omega
              subst hjeq
              have hpq : p = q := by
                rw [hidj] at hm
                rw [hm] at h
                injection h with h'
                exact h'.symm
              subst hpq
              omega
          · intro id h j hj hvj
            rcases Nat.lt_or_ge j n with hjn | hjn
            · exact ihn id h j hjn hvj
            · have hjeq : j = n := by omega
              subst hjeq
              intro hx
              rw [hx] at hm
              rw [hm] at h
              cases h
    · rw [autoStep_invalid buf M n hv]
      constructor
      · intro id p h
        obtain ⟨h1, h2, h3, h4, h5⟩ := ihs id p h
        refine ⟨by omega, h2, h3, h4, ?_⟩
        intro j hj hvj hidj
        rcases Nat.lt_or_ge j n with hjn | hjn
        · exact h5 j hjn hvj hidj
        · have hjeq : j = n := by omega
          subst hjeq
          exact absurd hvj hv
      · intro id h j hj hvj
        rcases Nat.lt_or_ge j n with hjn | hjn
        · exact ihn id h j hjn hvj
        · have hjeq : j = n := by omega
          subst hjeq
          exact absurd hvj hv

theorem mem_slot1Range_lt (j : Nat) (h : j ∈ slot1Range) : j < 32 := by
  have := List.mem_range.mp h
  omega

theorem mem_slot2Range_lt (j : Nat) (h : j ∈ slot2Range) : j < 32 := by
  have := List.mem_range'_1.mp h
  omega

theorem mem_forcedPrimary_lt (s j : Nat) (h : j ∈ forcedPrimaryRange s) : j < 32 := by
  unfold forcedPrimaryRange at h
  by_cases hs : s = 1
  · rw [if_pos hs] at h
    exact mem_slot1Range_lt j h
  · rw [if_neg hs] at h
    exact mem_slot2Range_lt j h

theorem mem_forcedOther_lt (s j : Nat) (h : j ∈ forcedOtherRange s) : j < 32 := by
  unfold forcedOtherRange at h
  by_cases hs : s = 1
  · rw [if_pos hs] at h
    exact mem_slot2Range_lt j h
  · rw [if_neg hs] at h
    exact mem_slot1Range_lt j h

theorem foldl_primStep_valid (buf : ByteBuf) :
    ∀ (l : List Nat) (m : Int → Option Nat),
      (∀ id i, m id = some i → i < 32 ∧ (get_sector_info_core buf i).valid = true ∧
        (get_sector_info_core buf i).id = id) →
      (∀ j, j ∈ l → j < 32) →
      ∀ id i, (l.foldl (primStep buf) m) id = some i →
        i < 32 ∧ (get_sector_info_core buf i).valid = true ∧
        (get_sector_info_core buf i).id = id := by
  intro l
  induction l with
  | nil =>
    intro m hm _ id i h
    exact hm id i h
  | cons a t ih =>
    intro m hm hl id i h
    rw [List.foldl_cons] at h
    refine ih (primStep buf m a) ?_ (fun j hj => hl j (List.mem_cons_of_mem a hj)) id i h
    intro id' i' h'
    by_cases hv : (get_sector_info_core buf a).valid = true
    · have hstep : primStep buf m a = mapInsert m (get_sector_info_core buf a).id a := by
        simp only [primStep]
        rw [if_pos hv]
      rw [hstep, mapInsert_apply] at h'
      by_cases hid : id' = (get_sector_info_core buf a).id
      · rw [if_pos hid] at h'
        injection h' with h''
        subst h''
        exact ⟨hl a (List.mem_cons_self a t), hv, hid.symm⟩
      · rw [if_neg hid] at h'
        exact hm id' i' h'
    · have hstep : primStep buf m a = m := by
        simp only [primStep]
        rw [if_neg hv]
      rw [hstep] at h'
      exact hm id' i' h'

theorem foldl_recovStep_valid (buf : ByteBuf) :
    ∀ (l : List Nat) (st : (Int → Option Nat) × List Int),
      (∀ id i, st.1 id = some i → i < 32 ∧ (get_sector_info_core buf i).valid = true ∧
        (get_sector_info_core buf i).id = id) →
      (∀ j, j ∈ l → j < 32) →
      ∀ id i, (l.foldl (recovStep buf) st).1 id = some i →
        i < 32 ∧ (get_sector_info_core buf i).valid = true ∧
        (get_sector_info_core buf i).id = id := by
  intro l
  induction l with
  | nil =>
    intro st hst _ id i h
    exact hst id i h
  | cons a t ih =>
    intro st hst hl id i h
    rw [List.foldl_cons] at h
    refine ih (recovStep buf st a) ?_ (fun j hj => hl j (List.mem_cons_of_mem a hj)) id i h
    intro id' i' h'
    by_cases hc : (get_sector_info_core buf a).valid = true ∧
        (get_sector_info_core buf a).id ∈ st.2
    · have hstep : recovStep buf st a
          = (mapInsert st.1 (get_sector_info_core buf a).id a,
             st.2.erase (get_sector_info_core buf a).id) := by
        simp only [recovStep]
        rw [if_pos hc]
      rw [hstep] at h'
      simp only [mapInsert_apply] at h'
      by_cases hid : id' = (get_sector_info_core buf a).id
      · rw [if_pos hid] at h'
        injection h' with h''
        subst h''
        exact ⟨hl a (List.mem_cons_self a t), hc.1, hid.symm⟩
      · rw [if_neg hid] at h'
        exact hst id' i' h'
    · have hstep : recovStep buf st a = st := by
        simp only [recovStep]
        rw [if_neg hc]
      rw [hstep] at h'
      exact hst id' i' h'

theorem forcedMap_valid (buf : ByteBuf) (s : Nat) (id : Int) (i : Nat)
    (h : forcedMap buf s id = some i) :
    i < 32 ∧ (get_sector_info_core buf i).valid = true ∧
    (get_sector_info_core buf i).id = id := by
  simp only [forcedMap] at h
  refine foldl_recovStep_valid buf (forcedOtherRange s) _ ?_
    (fun j hj => mem_forcedOther_lt s j hj) id i h
  intro id' i' h'
  refine foldl_primStep_valid buf (forcedPrimaryRange s) (fun _ => none) ?_
    (fun j hj => mem_forcedPrimary_lt s j hj) id' i' h'
  intro id'' i'' h''
  cases h''

/-- C4 amended: in both modes the sector map sends a logical id only to a
valid physical sector (in the 0..31 scan range) carrying that id; in
auto-detect mode the chosen sector additionally has the maximal counter
among valid same-id sectors.  (In forced mode the last-scanned valid
sector wins regardless of counter.) -/
theorem sector_map_valid_and_auto_max (buf : ByteBuf) (forced_slot : Option Nat)
    (m : Int → Option Nat) (id : Int) (i : Nat)
    (hb : build_sector_map buf forced_slot = .ok m) (hm : m id = some i) :
    i < 32 ∧ (get_sector_info_core buf i).valid = true ∧
    (get_sector_info_core buf i).id = id ∧
    (forced_slot = none → ∀ j, j < 32 → (get_sector_info_core buf j).valid = true →
      (get_sector_info_core buf j).id = id →
      (get_sector_info_core buf j).counter ≤ (get_sector_info_core buf i).counter) := by
  unfold build_sector_map at hb
  by_cases hlen : buf.len = 0
  · rw [if_pos hlen] at hb
    cases hb
  · rw [if_neg hlen] at hb
    injection hb with hb'
    subst hb'
    cases forced_slot with
    | none =>
      simp only [build_sector_map_core] at hm
      cases hauto : autoAll buf id with
      | none =>
        rw [hauto] at hm
        cases hm
      | some p =>
        rw [hauto] at hm
        simp only [Option.map_some'] at hm
        injection hm with hm2
        subst hm2
        obtain ⟨h1, h2, h3, h4, h5⟩ := (autoAll_spec buf 32).1 id p hauto
        exact ⟨h1, h2, h3, fun _ j hj hvj hidj => by
          rw [← h4]
          exact h5 j hj hvj hidj⟩
    | some s =>
      simp only [build_sector_map_core] at hm
      obtain ⟨h1, h2, h3⟩ := forcedMap_valid buf s id i hm
      exact ⟨h1, h2, h3, fun hcontra => nomatch hcontra⟩

/-- A synthetic save buffer for forced-slot mode: sectors 0 and 1 are both
valid with sector id 5; sector 0 has counter 100, sector 1 counter 1. -/
def c4buf : ByteBuf :=
  ⟨8192, fun i =>
    if i = 4084 then 5
    else if i = 4088 then 0x25 else if i = 4089 then 0x20
    else if i = 4090 then 0x01 else if i = 4091 then 0x08
    else if i = 4092 then 100
    else if i = 8180 then 5
    else if i = 8184 then 0x25 else if i = 8185 then 0x20
    else if i = 8186 then 0x01 else if i = 8187 then 0x08
    else if i = 8188 then 1
    else 0⟩

set_option maxRecDepth 100000 in
/-- C4 counterexample: in forced-slot mode the map sends id 5 to physical
sector 1 (counter 1) although sector 0 is valid, carries the same id and
has the strictly larger counter 100 - the last-scanned sector wins, not
the highest counter. -/
theorem forced_map_counter_counterexample :
    build_sector_map_core c4buf (some 1) 5 = some 1 ∧
    (get_sector_info_core c4buf 0).valid = true ∧
    (get_sector_info_core c4buf 0).id = 5 ∧
    (get_sector_info_core c4buf 1).valid = true ∧
    (get_sector_info_core c4buf 1).id = 5 ∧
    ¬ ((get_sector_info_core c4buf 0).counter ≤ (get_sector_info_core c4buf 1).counter) :=
  ⟨rfl, rfl, rfl, rfl, rfl, by decide⟩

set_option maxRecDepth 100000 in
/-- C4 amended witness: the amended theorem applied to the forced-slot map
of the synthetic buffer at id 5. -/
theorem sector_map_valid_and_auto_max_witness :
    1 < 32 ∧ (get_sector_info_core c4buf 1).valid = true ∧
    (get_sector_info_core c4buf 1).id = 5 ∧
    ((some 1 : Option Nat) = none → ∀ j, j < 32 →
      (get_sector_info_core c4buf j).valid = true →
      (get_sector_info_core c4buf j).id = 5 →
      (get_sector_info_core c4buf j).counter ≤ (get_sector_info_core c4buf 1).counter) :=
  sector_map_valid_and_auto_max c4buf (some 1) (build_sector_map_core c4buf (some 1)) 5 1
    rfl (by rfl)

/-! ## C5: save block 1 reassembly -/

theorem getD_take (l : List Nat) : ∀ n i, i < n → (l.take n).getD i 0 = l.getD i 0 := by
  induction l with
  | nil =>
    intro n i _
    simp [List.take_nil]
  | cons x t ih =>
    intro n i h
    cases n with
    | zero => omega
    | succ n2 =>
      cases i with
      | zero => simp [List.take_succ_cons]
      | succ i2 =>
        simp only [List.take_succ_cons, List.getD_cons_succ]
        exact ih n2 i2 (by omega)

theorem getD_drop (l : List Nat) : ∀ n i, (l.drop n).getD i 0 = l.getD (n + i) 0 := by
  induction l with
  | nil =>
    intro n i
    simp [List.drop_nil]
  | cons x t ih =>
    intro n i
    cases n with
    | zero => simp
    | succ n2 =>
      simp only [List.drop_succ_cons]
      rw [ih n2 i, show n2 + 1 + i = (n2 + i) + 1 by omega, List.getD_cons_succ]

theorem getD_replicate_zero (n i : Nat) : (List.replicate n (0 : Nat)).getD i 0 = 0 := by
  induction n generalizing i with
  | zero => simp
  | succ n2 ih =>
    cases i with
    | zero => simp [List.replicate_succ]
    | succ i2 => simp [List.replicate_succ, List.getD_cons_succ, ih]

theorem sliceList_length (b : ByteBuf) :
    ∀ n start, (sliceList b start n).length = min n (b.len - start) := by
  intro n
  induction n with
  | zero =>
    intro start
    simp [sliceList]
  | succ n2 ih =>
    intro start
    simp only [sliceList]
    by_cases h : start < b.len
    · rw [if_pos h]
      simp only [List.length_cons, ih (start + 1)]
      have h1 : b.len - (start + 1) = b.len - start - 1 := by omega
      rw [h1]
      rcases Nat.le_total n2 (b.len - start - 1) with hle | hle
      · rw [Nat.min_eq_left hle, Nat.min_eq_left (by omega)]
      · rw [Nat.min_eq_right hle, Nat.min_eq_right (by omega)]
        omega
    · rw [if_neg h]
      simp only [List.length_nil]
      rw [Nat.min_eq_right (by omega)]
      omega

theorem sliceList_getD (b : ByteBuf) : ∀ n start j,
    (sliceList b start n).getD j 0
      = if j < n ∧ start + j < b.len then b.get (start + j) else 0 := by
  intro n
  induction n with
  | zero =>
    intro start j
    rw [if_neg (by omega)]
    simp [sliceList]
  | succ n2 ih =>
    intro start j
    simp only [sliceList]
    by_cases h : start < b.len
    · rw [if_pos h]
      cases j with
      | zero =>
        simp only [List.getD_cons_zero]
        rw [if_pos ⟨by omega, by omega⟩]
        simp
      | succ j2 =>
        simp only [List.getD_cons_succ]
        rw [ih (start + 1) j2]
        by_cases hc : j2 < n2 ∧ start + 1 + j2 < b.len
        · rw [if_pos hc, if_pos ⟨by omega, by omega⟩]
          congr 1
          omega
        · have hc2 : ¬ (j2 + 1 < n2 + 1 ∧ start + (j2 + 1) < b.len) := by
            intro hcc
            exact hc ⟨by omega, by omega⟩
          rw [if_neg hc, if_neg hc2]
    · rw [if_neg h]
      simp only [List.getD_nil]
      rw [if_neg (by intro hcc; omega)]

theorem spliceBytes_length (out : List Nat) (co n : Nat) (repl : List Nat)
    (hout : co + n ≤ out.length) (hrepl : repl.length = n) :
    (spliceBytes out co n repl).length = out.length := by
  unfold spliceBytes
  simp only [List.length_append, List.length_take, List.length_drop]
  rw [Nat.min_eq_left (by omega)]
  omega

theorem spliceBytes_getD (out : List Nat) (co n : Nat) (repl : List Nat) (idx : Nat)
    (hout : co + n ≤ out.length) (hrepl : repl.length = n) :
    (spliceBytes out co n repl).getD idx 0
      = if co ≤ idx ∧ idx < co + n then repl.getD (idx - co) 0 else out.getD idx 0 := by
  unfold spliceBytes
  rw [List.append_assoc]
  have hA : (out.take co).length = co := by
    rw [List.length_take]
    exact Nat.min_eq_left (by omega)
  by_cases h1 : idx < co
  · rw [List.getD_append _ _ 0 idx (by rw [hA]; exact h1)]
    rw [getD_take out co idx h1]
    rw [if_neg (by intro hcc; omega)]
  · push_neg at h1
    rw [List.getD_append_right _ _ 0 idx (by rw [hA]; omega)]
    rw [hA]
    by_cases h2 : idx < co + n
    · rw [List.getD_append _ _ 0 _ (by rw [hrepl]; omega)]
      rw [if_pos ⟨h1, h2⟩]
    · rw [List.getD_append_right _ _ 0 _ (by rw [hrepl]; omega)]
      rw [hrepl, getD_drop]
      rw [if_neg (by intro hcc; omega)]
      congr 1
      omega

/-- The byte a present id's chunk carries at offset j: the j-th byte of
that sector's data region slice (0 for an absent id). -/
def sbChunkByte (buf : ByteBuf) (m : Int → Option Nat) (id : Nat) (j : Nat) : Nat :=
  match m (id : Int) with
  | some i => (sliceList buf (i * SECTOR_SIZE) SECTOR_DATA_SIZE).getD j 0
  | none => 0

theorem sb1_fold_spec (buf : ByteBuf) (m : Int → Option Nat)
    (hbound : ∀ id i, m id = some i → i * SECTOR_SIZE + SECTOR_SIZE ≤ buf.len) :
    ∀ (l : List Nat), (∀ id, id ∈ l → 1 ≤ id ∧ id ≤ 4 ∧ (m (id : Int)).isSome = true) →
      ∀ out, out.length = SAVEBLOCK1_SIZE →
        (l.foldl (sb1Step buf m) out).length = SAVEBLOCK1_SIZE ∧
        (∀ id, 1 ≤ id → id ≤ 4 → ∀ j, j < SECTOR_DATA_SIZE →
          (l.foldl (sb1Step buf m) out).getD ((id - 1) * SECTOR_DATA_SIZE + j) 0
            = if id ∈ l then sbChunkByte buf m id j
              else out.getD ((id - 1) * SECTOR_DATA_SIZE + j) 0) := by
  intro l
  induction l with
  | nil =>
    intro _ out hout
    refine ⟨hout, ?_⟩
    intro id _ _ j _
    rw [if_neg (by simp)]
    rfl
  | cons a t ih =>
    intro hl out hout
    obtain ⟨ha1, ha4, hsome⟩ := hl a (List.mem_cons_self a t)
    obtain ⟨ia, hia⟩ := Option.isSome_iff_exists.mp hsome
    have hstep : sb1Step buf m out a
        = spliceBytes out ((a - 1) * SECTOR_DATA_SIZE) SECTOR_DATA_SIZE
            ((sliceList buf (ia * SECTOR_SIZE) SECTOR_DATA_SIZE).take SECTOR_DATA_SIZE) := by
      simp only [sb1Step, hia]
    have hbnd := hbound (a : Int) ia hia
    have hslice_len : (sliceList buf (ia * SECTOR_SIZE) SECTOR_DATA_SIZE).length
        = SECTOR_DATA_SIZE := by
      rw [sliceList_length]
      have hbnd2 : ia * SECTOR_SIZE + 4096 ≤ buf.len := hbnd
      have hsd : SECTOR_DATA_SIZE = 3968 := rfl
      rw [hsd, Nat.min_eq_left (by omega)]
    have htake : (sliceList buf (ia * SECTOR_SIZE) SECTOR_DATA_SIZE).take SECTOR_DATA_SIZE
        = sliceList buf (ia * SECTOR_SIZE) SECTOR_DATA_SIZE :=
      List.take_of_length_le (le_of_eq hslice_len)
    have hrepl_len : ((sliceList buf (ia * SECTOR_SIZE) SECTOR_DATA_SIZE).take
        SECTOR_DATA_SIZE).length = SECTOR_DATA_SIZE := by
      rw [htake]
      exact hslice_len
    have hco : (a - 1) * SECTOR_DATA_SIZE + SECTOR_DATA_SIZE ≤ out.length := by
      rw [hout]
      have hsd : SECTOR_DATA_SIZE = 3968 := rfl
      have hsb : SAVEBLOCK1_SIZE = 15872 := rfl
      rw [hsd, hsb]
      omega
    have hout' : (sb1Step buf m out a).length = SAVEBLOCK1_SIZE := by
      rw [hstep, spliceBytes_length out _ _ _ hco hrepl_len, hout]
    rw [List.foldl_cons]
    obtain ⟨ihlen, ihgetD⟩ :=
      ih (fun id hid => hl id (List.mem_cons_of_mem a hid)) (sb1Step buf m out a) hout'
    refine ⟨ihlen, ?_⟩
    intro id hid1 hid4 j hj
    rw [ihgetD id hid1 hid4 j hj]
    by_cases hmem : id ∈ t
    · rw [if_pos hmem, if_pos (List.mem_cons_of_mem a hmem)]
    · rw [if_neg hmem, hstep, spliceBytes_getD out _ _ _ _ hco hrepl_len]
      by_cases hida : id = a
      · subst hida
        have hj' : j < 3968 := hj
        have hin : (id - 1) * SECTOR_DATA_SIZE ≤ (id - 1) * SECTOR_DATA_SIZE + j ∧
            (id - 1) * SECTOR_DATA_SIZE + j
              < (id - 1) * SECTOR_DATA_SIZE + SECTOR_DATA_SIZE := by
          have hsd : SECTOR_DATA_SIZE = 3968 := rfl
          rw [hsd]
          omega
        rw [if_pos hin, if_pos (List.mem_cons_self id t), htake]
        have hidx : (id - 1) * SECTOR_DATA_SIZE + j - (id - 1) * SECTOR_DATA_SIZE = j := by
          omega
        rw [hidx]
        simp only [sbChunkByte, hia]
      · have hj' : j < 3968 := hj
        have hdisj : ¬ ((a - 1) * SECTOR_DATA_SIZE ≤ (id - 1) * SECTOR_DATA_SIZE + j ∧
            (id - 1) * SECTOR_DATA_SIZE + j
              < (a - 1) * SECTOR_DATA_SIZE + SECTOR_DATA_SIZE) := by
          have hsd : SECTOR_DATA_SIZE = 3968 := rfl
          rw [hsd]
          intro hcc
          omega
        have hnotmem : ¬ id ∈ a :: t := by
          intro hcc
          rcases List.mem_cons.mp hcc with hx | hx
          · exact hida hx
          · exact hmem hx
        rw [if_neg hdisj, if_neg hnotmem]

/-- C5: extract_saveblock1 fails iff none of the logical ids 1..4 is
present in the sector map; otherwise it returns a 15872-byte buffer in
which every present id's byte range (id-1)*3968..+3968 equals that
sector's data region and every absent id's range stays all zeros. -/
theorem saveblock1_reassembly_spec (buf : ByteBuf) (m : Int → Option Nat)
    (hbound : ∀ id i, m id = some i → i * SECTOR_SIZE + SECTOR_SIZE ≤ buf.len) :
    ((∃ e, extract_saveblock1 buf m = .error e) ↔
      (∀ id : Nat, 1 ≤ id → id ≤ 4 → m (id : Int) = none)) ∧
    (∀ out, extract_saveblock1 buf m = .ok out →
      out.length = SAVEBLOCK1_SIZE ∧
      ∀ id : Nat, 1 ≤ id → id ≤ 4 → ∀ j, j < SECTOR_DATA_SIZE →
        (∀ i, m (id : Int) = some i →
          out.getD ((id - 1) * SECTOR_DATA_SIZE + j) 0 = buf.get (i * SECTOR_SIZE + j)) ∧
        (m (id : Int) = none → out.getD ((id - 1) * SECTOR_DATA_SIZE + j) 0 = 0)) := by
  unfold extract_saveblock1
  by_cases hlen : buf.len = 0
  · rw [if_pos hlen]
    constructor
    · constructor
      · intro _ id _ _
        cases hmi : m (id : Int) with
        | none => rfl
        | some i =>
          exfalso
          have hb := hbound (id : Int) i hmi
          rw [hlen] at hb
          have hs : SECTOR_SIZE = 4096 := rfl
          rw [hs] at hb
          omega
      · intro _
        exact ⟨_, rfl⟩
    · intro out hout
      cases hout
  · rw [if_neg hlen]
    by_cases hfilt : saveblock1_sectors m = []
    · rw [if_pos hfilt]
      constructor
      · constructor
        · intro _ id hid1 hid4
          have hmem : id ∈ List.range' 1 4 := List.mem_range'_1.mpr ⟨hid1, by omega⟩
          have hnp := List.filter_eq_nil_iff.mp hfilt id hmem
          cases hmi : m (id : Int) with
          | none => rfl
          | some i =>
            rw [hmi] at hnp
            simp at hnp
        · intro _
          exact ⟨_, rfl⟩
      · intro out hout
        cases hout
    · rw [if_neg hfilt]
      constructor
      · constructor
        · intro hex
          obtain ⟨e, he⟩ := hex
          cases he
        · intro hall
          exfalso
          apply hfilt
          apply List.filter_eq_nil_iff.mpr
          intro a ha
          have h14 := List.mem_range'_1.mp ha
          rw [hall a h14.1 (by omega)]
          simp
      · intro out hout
        injection hout with hout'
        subst hout'
        have hl : ∀ id, id ∈ saveblock1_sectors m →
            1 ≤ id ∧ id ≤ 4 ∧ (m (id : Int)).isSome = true := by
          intro id hid
          have hmf := List.mem_filter.mp hid
          have h14 := List.mem_range'_1.mp hmf.1
          exact ⟨h14.1, by omega, hmf.2⟩
        obtain ⟨hlen', hgetD⟩ := sb1_fold_spec buf m hbound (saveblock1_sectors m) hl
          (List.replicate SAVEBLOCK1_SIZE 0) (by simp)
        refine ⟨hlen', ?_⟩
        intro id hid1 hid4 j hj
        constructor
        · intro i hmi
          have hmem : id ∈ saveblock1_sectors m := by
            apply List.mem_filter.mpr
            refine ⟨List.mem_range'_1.mpr ⟨hid1, by omega⟩, ?_⟩
            rw [hmi]
            rfl
          rw [hgetD id hid1 hid4 j hj, if_pos hmem]
          simp only [sbChunkByte, hmi]
          rw [sliceList_getD]
          have hb := hbound (id : Int) i hmi
          have hb2 : i * SECTOR_SIZE + j < buf.len := by
            have h1 : j < 3968 := hj
            have h2 : i * SECTOR_SIZE + 4096 ≤ buf.len := hb
            omega
          rw [if_pos ⟨hj, hb2⟩]
        · intro hmi
          have hnmem : ¬ id ∈ saveblock1_sectors m := by
            intro hcc
            have hmf := (List.mem_filter.mp hcc).2
            rw [hmi] at hmf
            simp at hmf
          rw [hgetD id hid1 hid4 j hj, if_neg hnmem]
          exact getD_replicate_zero _ _

/-- C5 witness: the theorem applied to the empty sector map on a one-byte
buffer, where extraction fails with no id present. -/
theorem saveblock1_reassembly_spec_witness :
    ((∃ e, extract_saveblock1 ⟨1, fun _ => 0⟩ (fun _ => none) = .error e) ↔
      (∀ id : Nat, 1 ≤ id → id ≤ 4 → (fun _ => none : Int → Option Nat) (id : Int) = none)) ∧
    (∀ out, extract_saveblock1 ⟨1, fun _ => 0⟩ (fun _ => none) = .ok out →
      out.length = SAVEBLOCK1_SIZE ∧
      ∀ id : Nat, 1 ≤ id → id ≤ 4 → ∀ j, j < SECTOR_DATA_SIZE →
        (∀ i, (fun _ => none : Int → Option Nat) (id : Int) = some i →
          out.getD ((id - 1) * SECTOR_DATA_SIZE + j) 0
            = (⟨1, fun _ => 0⟩ : ByteBuf).get (i * SECTOR_SIZE + j)) ∧
        ((fun _ => none : Int → Option Nat) (id : Int) = none →
          out.getD ((id - 1) * SECTOR_DATA_SIZE + j) 0 = 0)) :=
  saveblock1_reassembly_spec ⟨1, fun _ => 0⟩ (fun _ => none) (fun _ _ h => nomatch h)

/-! ## C7: the spec's end-to-end single-valid-sector scenario -/

/-- A synthetic save file of 32 sectors: only sector 0 (in region A) is
valid - signature ok, checksum ok (all-zero data), sector id 0, counter
10; every other sector has a zero signature and is invalid. -/
def c7buf : ByteBuf :=
  ⟨131072, fun i =>
    if i = 4088 then 0x25 else if i = 4089 then 0x20
    else if i = 4090 then 0x01 else if i = 4091 then 0x08
    else if i = 4092 then 10
    else 0⟩

set_option maxRecDepth 400000 in
/-- C7 counterexample: on the spec's scenario buffer the full parse does
not return zero party records without error - it raises the
"No SaveBlock1 sectors found" failure, because none of the logical ids
1..4 is valid anywhere. -/
theorem end_to_end_single_sector_counterexample :
    parse_save_file c7buf none = .error "No SaveBlock1 sectors found" := by rfl

set_option maxRecDepth 400000 in
/-- C7 amended: on the scenario buffer slot selection does pick region A
(active slot start 0), but the parse then fails with "No SaveBlock1
sectors found"; party decoding itself, applied to an all-zero multi-sector
block, returns zero records. -/
theorem end_to_end_single_sector_amended :
    determine_active_slot c7buf none = .ok 0 ∧
    parse_save_file c7buf none = .error "No SaveBlock1 sectors found" ∧
    parse_party_pokemon (List.replicate SAVEBLOCK1_SIZE 0) = [] :=
  ⟨rfl, rfl, rfl⟩
